import Mathlib

/-!
Shallow embedding of the `leakybucket` fixed-window rate limiter:
the in-memory backend (package `memory`) and the redis-backed shared
backend (package `redis`).

Modelling conventions:
* Go `time.Time` and `time.Duration` are `Int` nanoseconds
  (`time.Time.After`/`Before` are strict `<` on the instants,
  `time.Time.Unix` is floor division by 10^9).
* Go `uint` is `Nat`; where Go converts a signed integer to `uint`
  (`uint(num)`), we take the value modulo 2^64 (`goUint64`).
* Each call receives the current wall-clock instant `now : Int` as an
  explicit argument standing for `time.Now()` during that call.
* The redis connection is reliable: network errors are not modelled.
  The remote store is a single key (each bucket has one fixed name):
  its value is absent, a non-integer string, or an integer; `pttl`
  holds the key's remaining time-to-live in milliseconds.  Every remote
  command a call issues is recorded in an output trace, so that
  theorems can speak about which commands were (not) sent.
-/

namespace LeakyBucket

/-- `uint(n)` for a Go signed integer `n`: reduction modulo 2^64. -/
def goUint64 (i : Int) : Nat := (i % (2 ^ 64 : Int)).toNat

/-- `time.Time.Unix`: seconds since epoch, i.e. floor of nanoseconds / 10^9. -/
def unixSec (t : Int) : Int := Int.ediv t 1000000000

/-- `time.Millisecond` in nanoseconds (the `millisecond` constant in redis.go). -/
def millisecondNs : Int := 1000000

/-- `time.Hour` in nanoseconds, the idle-eviction threshold of `Storage.Clean`. -/
def hourNs : Int := 3600000000000

/-- Errors an `Add` can return: `leakybucket.ErrorFull`, or the `strconv.Atoi`
failure surfaced by `byteArrayToUint`. -/
inductive BucketError
  | full
  | parseFail
deriving DecidableEq

/-- `leakybucket.BucketState{capacity, remaining, reset}`. -/
structure BucketState where
  capacity : Nat
  remaining : Nat
  reset : Int
deriving DecidableEq

namespace Memory

/-- The `memory` package's `bucket` struct. -/
structure Bucket where
  capacity : Nat
  remaining : Nat
  reset : Int
  rate : Int
  updated : Int
deriving DecidableEq

/-- Result of a memory-backend `Add`: the returned `BucketState`, the returned
error, and the mutated bucket. -/
structure AddResult where
  state : BucketState
  err : Option BucketError
  bucket : Bucket
deriving DecidableEq

/-- The window-rollover step of `bucket.Add`: Go's
`if time.Now().After(b.reset) { b.reset = time.Now().Add(b.rate); b.remaining = b.capacity }`. -/
def rollover (b : Bucket) (now : Int) : Bucket :=
  if b.reset < now then { b with reset := now + b.rate, remaining := b.capacity } else b

/-- The shared tail of `Add`/`AddWithTime`: the full-bucket check and the
decrement, returning the `BucketState` snapshot and error. -/
def consume (b : Bucket) (amount : Nat) : AddResult :=
  if b.remaining < amount then
    { state := ⟨b.capacity, b.remaining, b.reset⟩, err := some BucketError.full, bucket := b }
  else
    let b2 := { b with remaining := b.remaining - amount }
    { state := ⟨b2.capacity, b2.remaining, b2.reset⟩, err := none, bucket := b2 }

/-- `(*bucket).Add(amount)` of the memory backend, at wall-clock instant `now`. -/
def Bucket.Add (b : Bucket) (amount : Nat) (now : Int) : AddResult :=
  consume (rollover { b with updated := now } now) amount

/-- The realignment step of `AddWithTime`: Go's
`if t.Before(b.reset.Add(-1 * b.rate)) { b.reset = t.Add(b.rate) }`. -/
def realign (b : Bucket) (t : Int) : Bucket :=
  if t < b.reset - b.rate then { b with reset := t + b.rate } else b

/-- The rollover step of `AddWithTime`, keyed on the supplied time `t`:
`if t.After(b.reset) { b.reset = t.Add(b.rate); b.remaining = b.capacity }`. -/
def rolloverAt (b : Bucket) (t : Int) : Bucket :=
  if b.reset < t then { b with reset := t + b.rate, remaining := b.capacity } else b

/-- `(*bucket).AddWithTime(amount, t)` of the memory backend; `now` is the
wall clock (`time.Now()`), used only for the `updated` stamp. -/
def Bucket.AddWithTime (b : Bucket) (amount : Nat) (t now : Int) : AddResult :=
  consume (realign (rolloverAt { b with updated := now } t) t) amount

/-- The `memory` package's `Storage`: the `buckets` map, as an association
list keyed by bucket name. -/
abbrev Storage := List (String × Bucket)

/-- `Storage.Create(name, capacity, rate)` at wall-clock `now`: returns the
existing bucket if present, else inserts a fresh one with
`remaining = capacity`, `reset = now + rate`, `updated = now`. -/
def Storage.Create (s : Storage) (name : String) (capacity : Nat) (rate now : Int) :
    Bucket × Storage :=
  match List.lookup name s with
  | some b => (b, s)
  | none =>
    let b : Bucket :=
      { capacity := capacity, remaining := capacity, reset := now + rate,
        rate := rate, updated := now }
    (b, (name, b) :: s)

/-- `Storage.Clean`: delete every bucket whose `updated` is strictly before
`now - 1h`.  (The Go method takes a `name` argument it never reads.) -/
def Storage.Clean (s : Storage) (now : Int) : Storage :=
  List.filter (fun nb => !(decide (nb.2.updated < now - hourNs))) s

/-- Run a sequence of `Add` calls, each a pair (amount, call instant), and
return the final bucket. -/
def addSeq (b : Bucket) : List (Nat × Int) → Bucket
  | [] => b
  | c :: rest => addSeq (Bucket.Add b c.1 c.2).bucket rest

/-- Total amount of the accepted (non-error) `Add` calls along a sequence. -/
def acceptedSum (b : Bucket) : List (Nat × Int) → Nat
  | [] => 0
  | c :: rest =>
    (if (Bucket.Add b c.1 c.2).err = none then c.1 else 0) +
      acceptedSum (Bucket.Add b c.1 c.2).bucket rest

end Memory

namespace Redis

/-- Content stored under the bucket's key when the key is present: either a
string that `strconv.Atoi` rejects, or one that parses to the integer `i`. -/
inductive Content
  | malformed
  | val (i : Int)
deriving DecidableEq

/-- The remote store, restricted to the one key a bucket uses: the stored
value (or `none` when the key is absent) and the key's time-to-live in
milliseconds (what `PTTL` answers). -/
structure Store where
  value : Option Content
  pttl : Int
deriving DecidableEq

/-- A remote command issued over the borrowed connection. -/
inductive Cmd
  | get
  | incrby (amount : Nat)
  | pexpire (ms : Int)
  | pttl
deriving DecidableEq

/-- `byteArrayToUint`: `strconv.Atoi` then conversion to `uint`.  A
non-integer string is an error; an integer (possibly negative) converts
modulo 2^64. -/
def byteArrayToUint : Content → Option Nat
  | Content.malformed => none
  | Content.val i => some (goUint64 i)

/-- The `redis` package's `bucket` struct (minus the name and pool, which
identify the single key / connection already fixed by the model). -/
structure Bucket where
  capacity : Nat
  remaining : Nat
  reset : Int
  rate : Int
deriving DecidableEq

/-- `bucket.State()`. -/
def Bucket.State (b : Bucket) : BucketState :=
  ⟨b.capacity, b.remaining, b.reset⟩

/-- `(*bucket).updateOldReset()`: when the cached reset is still in the
future (compared in whole Unix seconds) do nothing; otherwise read `PTTL`
and set `reset = now + ttl * millisecond`.  Returns the updated bucket and
the commands issued. -/
def updateOldReset (b : Bucket) (now : Int) (st : Store) : Bucket × List Cmd :=
  if unixSec now < unixSec b.reset then (b, [])
  else ({ b with reset := now + st.pttl * millisecondNs }, [Cmd.pttl])

/-- Result of a redis-backend `Add`: returned state and error, the mutated
local bucket, the remote store afterwards, and the command trace. -/
structure AddResult where
  state : BucketState
  err : Option BucketError
  bucket : Bucket
  store : Store
  cmds : List Cmd
deriving DecidableEq

/-- The tail of `(*bucket).Add` from the full-bucket check onward.  `b` has
its `remaining` already refreshed from the `GET`; `c0` is the integer value
the counter held before the increment (0 when the key was absent). -/
def addTail (b : Bucket) (amount : Nat) (now : Int) (st : Store) (c0 : Int)
    (cmds : List Cmd) : AddResult :=
  if b.remaining < amount then
    let bc := updateOldReset b now st
    { state := bc.1.State, err := some BucketError.full, bucket := bc.1,
      store := st, cmds := cmds ++ bc.2 }
  else
    let expiry := Int.tdiv b.rate millisecondNs
    let count := c0 + (amount : Int)
    let st1 : Store := { st with value := some (Content.val count) }
    let cmds1 := cmds ++ [Cmd.incrby amount]
    let stc :=
      if goUint64 count = amount then
        ({ st1 with pttl := expiry }, cmds1 ++ [Cmd.pexpire expiry])
      else (st1, cmds1)
    let bc := updateOldReset b now stc.1
    let b3 := { bc.1 with remaining := bc.1.capacity - min (goUint64 count) bc.1.capacity }
    { state := b3.State, err := none, bucket := b3, store := stc.1,
      cmds := stc.2 ++ bc.2 }

/-- `(*bucket).Add(amount)` of the redis backend at wall-clock `now`, against
remote store `st`: `GET`, refresh `remaining` from the counter (a parse
failure aborts), full-bucket check, `INCRBY`, conditional `PEXPIRE`,
`updateOldReset`, recompute `remaining`. -/
def Bucket.Add (b : Bucket) (amount : Nat) (now : Int) (st : Store) : AddResult :=
  match st.value with
  | none =>
    addTail { b with remaining := b.capacity } amount now st 0 [Cmd.get]
  | some Content.malformed =>
    { state := b.State, err := some BucketError.parseFail, bucket := b,
      store := st, cmds := [Cmd.get] }
  | some (Content.val i) =>
    addTail { b with remaining := b.capacity - min (goUint64 i) b.capacity }
      amount now st i [Cmd.get]

/-- Result of the redis backend's `Storage.Create`: the bucket handle (or a
parse error) and the command trace.  `Create` never writes to the store. -/
structure CreateResult where
  bucket : Option Bucket
  err : Option BucketError
  cmds : List Cmd
deriving DecidableEq

/-- `Storage.Create(name, capacity, rate)` of the redis backend at wall-clock
`now`: `GET`; on an absent key build a fresh bucket
(`remaining = capacity`, `reset = now + rate`); on a parse failure return the
error; otherwise read `PTTL` and build the bucket from the remote counter
and time-to-live. -/
def Storage.Create (capacity : Nat) (rate now : Int) (st : Store) : CreateResult :=
  match st.value with
  | none =>
    let b : Bucket :=
      { capacity := capacity, remaining := capacity,
        reset := now + rate, rate := rate }
    { bucket := some b, err := none, cmds := [Cmd.get] }
  | some Content.malformed =>
    { bucket := none, err := some BucketError.parseFail, cmds := [Cmd.get] }
  | some (Content.val i) =>
    let b : Bucket :=
      { capacity := capacity,
        remaining := capacity - min capacity (goUint64 i),
        reset := now + st.pttl * millisecondNs, rate := rate }
    { bucket := some b, err := none, cmds := [Cmd.get, Cmd.pttl] }

end Redis

/-! ## Helper lemmas -/

namespace Memory

theorem consume_bucket_reset (b : Bucket) (amount : Nat) :
    (consume b amount).bucket.reset = b.reset := by
  unfold consume; split <;> rfl

theorem consume_bucket_capacity (b : Bucket) (amount : Nat) :
    (consume b amount).bucket.capacity = b.capacity := by
  unfold consume; split <;> rfl

theorem consume_bucket_updated (b : Bucket) (amount : Nat) :
    (consume b amount).bucket.updated = b.updated := by
  unfold consume; split <;> rfl

theorem rollover_updated (b : Bucket) (now : Int) :
    (rollover b now).updated = b.updated := by
  unfold rollover; split <;> rfl

theorem rolloverAt_updated (b : Bucket) (t : Int) :
    (rolloverAt b t).updated = b.updated := by
  unfold rolloverAt; split <;> rfl

theorem realign_updated (b : Bucket) (t : Int) :
    (realign b t).updated = b.updated := by
  unfold realign; split <;> rfl

theorem realign_remaining (b : Bucket) (t : Int) :
    (realign b t).remaining = b.remaining := by
  unfold realign; split <;> rfl

theorem realign_capacity (b : Bucket) (t : Int) :
    (realign b t).capacity = b.capacity := by
  unfold realign; split <;> rfl

theorem rollover_remaining_le (b : Bucket) (now : Int) (h : b.remaining ≤ b.capacity) :
    (rollover b now).remaining ≤ (rollover b now).capacity := by
  unfold rollover; split
  · simp
  · simpa using h

theorem rolloverAt_remaining_le (b : Bucket) (t : Int) (h : b.remaining ≤ b.capacity) :
    (rolloverAt b t).remaining ≤ (rolloverAt b t).capacity := by
  unfold rolloverAt; split
  · simp
  · simpa using h

theorem consume_remaining_le (b : Bucket) (amount : Nat) (h : b.remaining ≤ b.capacity) :
    (consume b amount).bucket.remaining ≤ (consume b amount).bucket.capacity := by
  unfold consume; split
  · simpa
  · simp; omega

theorem consume_acct (b : Bucket) (a : Nat) :
    (consume b a).bucket.remaining +
      (if (consume b a).err = none then a else 0) = b.remaining := by
  unfold consume
  by_cases hfull : b.remaining < a
  · rw [if_pos hfull]
    simp
  · rw [if_neg hfull]
    simp
    omega

theorem Add_no_rollover_step (b : Bucket) (a : Nat) (t : Int) (h : t ≤ b.reset) :
    (Bucket.Add b a t).bucket.reset = b.reset
    ∧ (Bucket.Add b a t).bucket.capacity = b.capacity
    ∧ (Bucket.Add b a t).bucket.remaining +
        (if (Bucket.Add b a t).err = none then a else 0) = b.remaining := by
  have hro : rollover { b with updated := t } t = { b with updated := t } := by
    simp [rollover, not_lt.mpr h]
  unfold Bucket.Add
  rw [hro]
  refine ⟨consume_bucket_reset _ _, consume_bucket_capacity _ _, ?_⟩
  simpa using consume_acct { b with updated := t } a

theorem addSeq_invariant (calls : List (Nat × Int)) (b : Bucket)
    (hwin : ∀ c ∈ calls, c.2 ≤ b.reset) :
    (addSeq b calls).remaining + acceptedSum b calls = b.remaining
    ∧ (addSeq b calls).capacity = b.capacity
    ∧ (addSeq b calls).reset = b.reset := by
  induction calls generalizing b with
  | nil => simp [addSeq, acceptedSum]
  | cons c rest ih =>
    obtain ⟨hreset, hcap, hrem⟩ :=
      Add_no_rollover_step b c.1 c.2 (hwin c (List.mem_cons_self _ _))
    have hwin2 : ∀ d ∈ rest, d.2 ≤ (Bucket.Add b c.1 c.2).bucket.reset := by
      intro d hd
      rw [hreset]
      exact hwin d (List.mem_cons_of_mem _ hd)
    obtain ⟨ih1, ih2, ih3⟩ := ih (Bucket.Add b c.1 c.2).bucket hwin2
    refine ⟨?_, ?_, ?_⟩
    · simp only [addSeq, acceptedSum]
      omega
    · simp only [addSeq]
      rw [ih2, hcap]
    · simp only [addSeq]
      rw [ih3, hreset]

end Memory

namespace Redis

theorem Add_value_none (rb : Bucket) (amount : Nat) (now : Int) (st : Store)
    (h : st.value = none) :
    Bucket.Add rb amount now st =
      addTail { rb with remaining := rb.capacity } amount now st 0 [Cmd.get] := by
  unfold Bucket.Add
  rw [h]

theorem Add_value_val (rb : Bucket) (amount : Nat) (now : Int) (st : Store) (i : Int)
    (h : st.value = some (Content.val i)) :
    Bucket.Add rb amount now st =
      addTail { rb with remaining := rb.capacity - min (goUint64 i) rb.capacity }
        amount now st i [Cmd.get] := by
  unfold Bucket.Add
  rw [h]

theorem Add_value_malformed (rb : Bucket) (amount : Nat) (now : Int) (st : Store)
    (h : st.value = some Content.malformed) :
    Bucket.Add rb amount now st =
      { state := rb.State, err := some BucketError.parseFail, bucket := rb, store := st,
        cmds := [Cmd.get] } := by
  unfold Bucket.Add
  rw [h]

theorem addTail_full_spec (b : Bucket) (amount : Nat) (now : Int) (st : Store)
    (c0 : Int) (cmds : List Cmd) (h : b.remaining < amount) :
    (addTail b amount now st c0 cmds).err = some BucketError.full
    ∧ (addTail b amount now st c0 cmds).store = st
    ∧ (addTail b amount now st c0 cmds).cmds
        = cmds ++ (if unixSec now < unixSec b.reset then [] else [Cmd.pttl])
    ∧ (addTail b amount now st c0 cmds).bucket.capacity = b.capacity
    ∧ (addTail b amount now st c0 cmds).bucket.remaining = b.remaining
    ∧ (addTail b amount now st c0 cmds).bucket.reset
        = (if unixSec now < unixSec b.reset then b.reset else now + st.pttl * millisecondNs)
    ∧ (addTail b amount now st c0 cmds).state
        = (addTail b amount now st c0 cmds).bucket.State := by
  unfold addTail
  rw [if_pos h]
  by_cases hr : unixSec now < unixSec b.reset <;>
    simp [updateOldReset, Bucket.State, hr]

theorem addTail_ok_spec (b : Bucket) (amount : Nat) (now : Int) (st : Store)
    (c0 : Int) (cmds : List Cmd) (h : ¬ b.remaining < amount) :
    (addTail b amount now st c0 cmds).err = none
    ∧ (addTail b amount now st c0 cmds).store.value
        = some (Content.val (c0 + (amount : Int)))
    ∧ (addTail b amount now st c0 cmds).store.pttl
        = (if goUint64 (c0 + (amount : Int)) = amount
           then Int.tdiv b.rate millisecondNs else st.pttl)
    ∧ (addTail b amount now st c0 cmds).cmds
        = cmds ++ [Cmd.incrby amount]
          ++ (if goUint64 (c0 + (amount : Int)) = amount
              then [Cmd.pexpire (Int.tdiv b.rate millisecondNs)] else [])
          ++ (if unixSec now < unixSec b.reset then [] else [Cmd.pttl])
    ∧ (addTail b amount now st c0 cmds).bucket.capacity = b.capacity
    ∧ (addTail b amount now st c0 cmds).bucket.remaining
        = b.capacity - min (goUint64 (c0 + (amount : Int))) b.capacity
    ∧ (addTail b amount now st c0 cmds).bucket.reset
        = (if unixSec now < unixSec b.reset then b.reset
           else now + (if goUint64 (c0 + (amount : Int)) = amount
                       then Int.tdiv b.rate millisecondNs else st.pttl) * millisecondNs)
    ∧ (addTail b amount now st c0 cmds).state
        = (addTail b amount now st c0 cmds).bucket.State := by
  unfold addTail
  rw [if_neg h]
  by_cases hc : goUint64 (c0 + (amount : Int)) = amount <;>
    by_cases hr : unixSec now < unixSec b.reset <;>
      simp [updateOldReset, Bucket.State, hc, hr]

theorem addTail_remaining_le (b : Bucket) (amount : Nat) (now : Int) (st : Store)
    (c0 : Int) (cmds : List Cmd) (h : b.remaining ≤ b.capacity) :
    (addTail b amount now st c0 cmds).bucket.remaining ≤
      (addTail b amount now st c0 cmds).bucket.capacity := by
  by_cases hfull : b.remaining < amount
  · obtain ⟨-, -, -, hcap, hrem, -, -⟩ := addTail_full_spec b amount now st c0 cmds hfull
    rw [hrem, hcap]
    exact h
  · obtain ⟨-, -, -, -, hcap, hrem, -, -⟩ := addTail_ok_spec b amount now st c0 cmds hfull
    rw [hrem, hcap]
    exact Nat.sub_le _ _

theorem addTail_reset_reconcile (b : Bucket) (amount : Nat) (now : Int)
    (st : Store) (c0 : Int) (cmds : List Cmd) (h : ¬ b.remaining < amount) :
    (unixSec b.reset ≤ unixSec now →
      (addTail b amount now st c0 cmds).state.reset =
        now + (addTail b amount now st c0 cmds).store.pttl * millisecondNs
      ∧ Cmd.pttl ∈ (addTail b amount now st c0 cmds).cmds)
    ∧ (unixSec now < unixSec b.reset →
      (addTail b amount now st c0 cmds).state.reset = b.reset
      ∧ (Cmd.pttl ∉ cmds → Cmd.pttl ∉ (addTail b amount now st c0 cmds).cmds)) := by
  obtain ⟨-, -, hpttl, hcmds, -, -, hreset, hstate⟩ :=
    addTail_ok_spec b amount now st c0 cmds h
  constructor
  · intro hle
    have hnlt : ¬ unixSec now < unixSec b.reset := not_lt.mpr hle
    constructor
    · rw [hstate, hpttl]
      simp only [Bucket.State]
      rw [hreset, if_neg hnlt]
    · rw [hcmds, if_neg hnlt]
      simp
  · intro hlt
    constructor
    · rw [hstate]
      simp only [Bucket.State]
      rw [hreset, if_pos hlt]
    · intro hnot hmem
      rw [hcmds, if_pos hlt] at hmem
      rcases Decidable.em (goUint64 (c0 + (amount : Int)) = amount) with hc | hc
      · rw [if_pos hc] at hmem
        simp at hmem
        exact hnot hmem
      · rw [if_neg hc] at hmem
        simp at hmem
        exact hnot hmem

theorem goUint64_ofNat (n : Nat) (h : n < 2 ^ 64) : goUint64 (n : Int) = n := by
  simp only [goUint64]
  omega

end Redis

/-! ## Claim theorems -/

/-- C1 (counterexample): at the exact window boundary `now = reset` the code
does **not** roll the window forward: with `reset = 0`, `rate = 5`,
`remaining = 3`, `capacity = 10`, a call at `now = 0` satisfies
`now ≥ reset`, yet neither `remaining` is set to `capacity` nor `reset` to
`now + rate`, because the source guards the rollover with the strict
`time.Now().After(b.reset)`. -/
theorem memAdd_boundary_no_rollover_cex :
    ((0 : Int) ≥ (Memory.Bucket.mk 10 3 0 5 0).reset)
    ∧ ((Memory.Bucket.mk 10 3 0 5 0).Add 0 0).bucket.remaining ≠
        (Memory.Bucket.mk 10 3 0 5 0).capacity
    ∧ ((Memory.Bucket.mk 10 3 0 5 0).Add 0 0).bucket.reset ≠
        0 + (Memory.Bucket.mk 10 3 0 5 0).rate := by
  decide

/-- C1 (amended): the memory backend's `Add` is exactly the consume step
applied after the rollover step; the rollover step rolls the window forward
(`remaining := capacity`, `reset := now + rate`) when `now` is **strictly
after** `reset`, and leaves both `remaining` and `reset` unchanged whenever
`now ≤ reset`. -/
theorem memAdd_rollover_strict (b : Memory.Bucket) (amount : Nat) (now : Int) :
    Memory.Bucket.Add b amount now =
      Memory.consume (Memory.rollover { b with updated := now } now) amount
    ∧ (b.reset < now →
        Memory.rollover { b with updated := now } now =
          { b with updated := now, reset := now + b.rate, remaining := b.capacity })
    ∧ (now ≤ b.reset →
        Memory.rollover { b with updated := now } now = { b with updated := now }) := by
  refine ⟨rfl, fun h => ?_, fun h => ?_⟩
  · simp [Memory.rollover, h]
  · simp [Memory.rollover, not_lt.mpr h]

/-- C1 (witness): at `now = 7 > reset = 0` the rollover step fires and
produces the rolled bucket. -/
theorem memAdd_rollover_strict_witness :
    Memory.rollover { Memory.Bucket.mk 10 3 0 5 0 with updated := 7 } 7 =
      Memory.Bucket.mk 10 10 12 5 7 := by
  have h := (memAdd_rollover_strict (Memory.Bucket.mk 10 3 0 5 0) 2 7).2.1 (by decide)
  simpa using h

/-- C7: for the memory backend's `AddWithTime(amount, t)`, if `t` is strictly
earlier than `reset - rate` the window is force-realigned so the final reset
time is `t + rate`; if `reset - rate ≤ t ≤ reset` the reset time is left
unchanged. -/
theorem memAddWithTime_realign_reset (b : Memory.Bucket) (amount : Nat) (t now : Int) :
    (t < b.reset - b.rate →
      (Memory.Bucket.AddWithTime b amount t now).bucket.reset = t + b.rate)
    ∧ (b.reset - b.rate ≤ t → t ≤ b.reset →
      (Memory.Bucket.AddWithTime b amount t now).bucket.reset = b.reset) := by
  unfold Memory.Bucket.AddWithTime
  rw [Memory.consume_bucket_reset]
  constructor
  · intro h
    unfold Memory.rolloverAt Memory.realign
    split_ifs with h1 h2 <;> simp_all
  · intro h1 h2
    unfold Memory.rolloverAt Memory.realign
    split_ifs with h3 h4 <;> simp_all <;> omega

/-- C7 (witness): with `reset = 100`, `rate = 30`, a call at supplied time
`t = 50 < 70 = reset - rate` realigns the window to end at `t + rate = 80`;
a call at `t = 90 ∈ [70, 100]` leaves the reset time at 100. -/
theorem memAddWithTime_realign_reset_witness :
    (Memory.Bucket.AddWithTime (Memory.Bucket.mk 10 4 100 30 0) 1 50 99).bucket.reset = 80
    ∧ (Memory.Bucket.AddWithTime (Memory.Bucket.mk 10 4 100 30 0) 1 90 99).bucket.reset
        = 100 := by
  have h1 := (memAddWithTime_realign_reset (Memory.Bucket.mk 10 4 100 30 0) 1 50 99).1
    (by decide)
  have h2 := (memAddWithTime_realign_reset (Memory.Bucket.mk 10 4 100 30 0) 1 90 99).2
    (by decide) (by decide)
  exact ⟨by simpa using h1, by simpa using h2⟩

/-- C10: every memory-backend `Add`/`AddWithTime` call — whatever its outcome,
failed ones included — stamps the bucket's `updated` field with the current
wall-clock instant; `Storage.Clean` keeps exactly the entries whose `updated`
is not strictly older than one hour before the sweep, so a bucket touched at
`now ≥ cleanNow - 1h` (even by a failed `Add`) survives the sweep. -/
theorem add_stamps_updated (b : Memory.Bucket) (amount : Nat) (t now cleanNow : Int)
    (s : Memory.Storage) :
    (Memory.Bucket.Add b amount now).bucket.updated = now
    ∧ (Memory.Bucket.AddWithTime b amount t now).bucket.updated = now
    ∧ (∀ nb : String × Memory.Bucket,
        nb ∈ Memory.Storage.Clean s cleanNow ↔ nb ∈ s ∧ ¬ nb.2.updated < cleanNow - hourNs)
    ∧ (cleanNow - hourNs ≤ now → ∀ name : String,
        (name, (Memory.Bucket.Add b amount now).bucket) ∈ s →
        (name, (Memory.Bucket.Add b amount now).bucket) ∈ Memory.Storage.Clean s cleanNow) := by
  have h1 : (Memory.Bucket.Add b amount now).bucket.updated = now := by
    unfold Memory.Bucket.Add
    rw [Memory.consume_bucket_updated, Memory.rollover_updated]
  have h2 : (Memory.Bucket.AddWithTime b amount t now).bucket.updated = now := by
    unfold Memory.Bucket.AddWithTime
    rw [Memory.consume_bucket_updated, Memory.realign_updated, Memory.rolloverAt_updated]
  have h3 : ∀ nb : String × Memory.Bucket,
      nb ∈ Memory.Storage.Clean s cleanNow ↔ nb ∈ s ∧ ¬ nb.2.updated < cleanNow - hourNs := by
    intro nb
    simp [Memory.Storage.Clean, List.mem_filter]
  refine ⟨h1, h2, h3, fun hle name hmem => ?_⟩
  exact (h3 _).mpr ⟨hmem, by rw [h1]; omega⟩

/-- C10 (witness): a rejected `Add` (amount 20 against remaining 9) at
`now = 5` still stamps `updated = 5`, and the bucket survives a `Clean`
sweep at instant 5. -/
theorem add_stamps_updated_witness :
    ((Memory.Bucket.mk 10 9 100 50 0).Add 20 5).err = some BucketError.full
    ∧ ("a", ((Memory.Bucket.mk 10 9 100 50 0).Add 20 5).bucket) ∈
        Memory.Storage.Clean [("a", Memory.Bucket.mk 10 9 100 50 5)] 5 := by
  have h := (add_stamps_updated (Memory.Bucket.mk 10 9 100 50 0) 20 0 5 5
      [("a", Memory.Bucket.mk 10 9 100 50 5)]).2.2.2 (by decide) "a" (by decide)
  exact ⟨by decide, h⟩

/-- C2: on either backend, when the post-rollover remaining is smaller than
the requested amount, `Add` fails with `ErrorFull` and returns the
post-rollover, pre-decrement state; the authoritative quota (the memory
bucket's `remaining`; the remote counter for the shared backend, which sees
no `INCRBY`) is not changed by the failed call. -/
theorem add_full_returns_unmodified (b : Memory.Bucket) (rb : Redis.Bucket)
    (amount : Nat) (now : Int) (st : Redis.Store) (i : Int) :
    ((Memory.rollover { b with updated := now } now).remaining < amount →
      Memory.Bucket.Add b amount now =
        { state := ⟨(Memory.rollover { b with updated := now } now).capacity,
                    (Memory.rollover { b with updated := now } now).remaining,
                    (Memory.rollover { b with updated := now } now).reset⟩,
          err := some BucketError.full,
          bucket := Memory.rollover { b with updated := now } now })
    ∧ (st.value = some (Redis.Content.val i) →
        rb.capacity - min (goUint64 i) rb.capacity < amount →
        (Redis.Bucket.Add rb amount now st).err = some BucketError.full
        ∧ (Redis.Bucket.Add rb amount now st).store = st
        ∧ Redis.Cmd.incrby amount ∉ (Redis.Bucket.Add rb amount now st).cmds
        ∧ (Redis.Bucket.Add rb amount now st).state.capacity = rb.capacity
        ∧ (Redis.Bucket.Add rb amount now st).state.remaining =
            rb.capacity - min (goUint64 i) rb.capacity)
    ∧ (st.value = none → rb.capacity < amount →
        (Redis.Bucket.Add rb amount now st).err = some BucketError.full
        ∧ (Redis.Bucket.Add rb amount now st).store = st
        ∧ Redis.Cmd.incrby amount ∉ (Redis.Bucket.Add rb amount now st).cmds
        ∧ (Redis.Bucket.Add rb amount now st).state.remaining = rb.capacity) := by
  refine ⟨fun h => ?_, fun hv hlt => ?_, fun hv hlt => ?_⟩
  · unfold Memory.Bucket.Add Memory.consume
    rw [if_pos h]
  · rw [Redis.Add_value_val rb amount now st i hv]
    obtain ⟨he, hs, hc, hcap, hrem, -, hstate⟩ :=
      Redis.addTail_full_spec
        { rb with remaining := rb.capacity - min (goUint64 i) rb.capacity }
        amount now st i [Redis.Cmd.get] hlt
    refine ⟨he, hs, ?_, ?_, ?_⟩
    · rw [hc]
      split_ifs <;> simp
    · rw [hstate, Redis.Bucket.State]
      simpa using hcap
    · rw [hstate, Redis.Bucket.State]
      simpa using hrem
  · rw [Redis.Add_value_none rb amount now st hv]
    obtain ⟨he, hs, hc, -, hrem, -, hstate⟩ :=
      Redis.addTail_full_spec { rb with remaining := rb.capacity }
        amount now st 0 [Redis.Cmd.get] hlt
    refine ⟨he, hs, ?_, ?_⟩
    · rw [hc]
      split_ifs <;> simp
    · rw [hstate, Redis.Bucket.State]
      simpa using hrem

/-- C2 (witness): memory bucket `{capacity 10, remaining 6, reset 1000}`
rejects `Add(7)` at `now = 200` with the unchanged state; a redis bucket of
capacity 10 with remote counter 6 rejects `Add(7)` without touching the
store, and an absent key (fresh window) rejects `Add(11)`. -/
theorem add_full_returns_unmodified_witness :
    Memory.Bucket.Add (Memory.Bucket.mk 10 6 1000 1000 0) 7 200 =
      { state := ⟨10, 6, 1000⟩, err := some BucketError.full,
        bucket := Memory.Bucket.mk 10 6 1000 1000 200 }
    ∧ (Redis.Bucket.Add (Redis.Bucket.mk 10 10 1000000000 1000000000) 7 0
        { value := some (Redis.Content.val 6), pttl := 700 }).err = some BucketError.full
    ∧ (Redis.Bucket.Add (Redis.Bucket.mk 10 10 1000000000 1000000000) 7 0
        { value := some (Redis.Content.val 6), pttl := 700 }).store =
      { value := some (Redis.Content.val 6), pttl := 700 }
    ∧ (Redis.Bucket.Add (Redis.Bucket.mk 10 10 1000000000 1000000000) 11 0
        { value := none, pttl := -2 }).err = some BucketError.full := by
  have h1 := (add_full_returns_unmodified (Memory.Bucket.mk 10 6 1000 1000 0)
      (Redis.Bucket.mk 10 10 1000000000 1000000000) 7 200
      { value := some (Redis.Content.val 6), pttl := 700 } 6).1 (by decide)
  have h2 := (add_full_returns_unmodified (Memory.Bucket.mk 10 6 1000 1000 0)
      (Redis.Bucket.mk 10 10 1000000000 1000000000) 7 0
      { value := some (Redis.Content.val 6), pttl := 700 } 6).2.1 (by decide) (by decide)
  have h3 := (add_full_returns_unmodified (Memory.Bucket.mk 10 6 1000 1000 0)
      (Redis.Bucket.mk 10 10 1000000000 1000000000) 11 0
      { value := none, pttl := -2 } 6).2.2 (by decide) (by decide)
  exact ⟨by simpa using h1, h2.1, h2.2.1, h3.1⟩

/-- C4: `0 ≤ remaining ≤ capacity` holds at creation and is preserved by
every operation of both backends (`remaining` is a `Nat`, so `0 ≤ remaining`
is inherent): a freshly created memory bucket has `remaining = capacity`;
`Add`/`AddWithTime` preserve `remaining ≤ capacity`; the shared backend's
`Add` preserves it, and whenever the remote counter parses — even to a value
past `capacity` — the projected `remaining = capacity - min(counter,
capacity)` lies in `[0, capacity]` with no assumption on the prior state;
every bucket the shared backend's `Create` returns satisfies it. -/
theorem remaining_bounds_invariant (b : Memory.Bucket) (rb : Redis.Bucket)
    (amount capacity : Nat) (t now rate cnow : Int) (s : Memory.Storage)
    (name : String) (st : Redis.Store) (i : Int) :
    (List.lookup name s = none →
      (Memory.Storage.Create s name capacity rate cnow).1.remaining =
        (Memory.Storage.Create s name capacity rate cnow).1.capacity)
    ∧ (b.remaining ≤ b.capacity →
        (Memory.Bucket.Add b amount now).bucket.remaining ≤
          (Memory.Bucket.Add b amount now).bucket.capacity)
    ∧ (b.remaining ≤ b.capacity →
        (Memory.Bucket.AddWithTime b amount t now).bucket.remaining ≤
          (Memory.Bucket.AddWithTime b amount t now).bucket.capacity)
    ∧ (rb.remaining ≤ rb.capacity →
        (Redis.Bucket.Add rb amount now st).bucket.remaining ≤
          (Redis.Bucket.Add rb amount now st).bucket.capacity)
    ∧ (st.value = some (Redis.Content.val i) →
        (Redis.Bucket.Add rb amount now st).bucket.remaining ≤
          (Redis.Bucket.Add rb amount now st).bucket.capacity)
    ∧ (∀ rb2 : Redis.Bucket,
        (Redis.Storage.Create capacity rate cnow st).bucket = some rb2 →
        rb2.remaining ≤ rb2.capacity) := by
  refine ⟨fun h => ?_, fun h => ?_, fun h => ?_, fun h => ?_, fun hv => ?_, fun rb2 h => ?_⟩
  · unfold Memory.Storage.Create
    rw [h]
  · unfold Memory.Bucket.Add
    exact Memory.consume_remaining_le _ _ (Memory.rollover_remaining_le _ _ (by simpa))
  · unfold Memory.Bucket.AddWithTime
    refine Memory.consume_remaining_le _ _ ?_
    rw [Memory.realign_remaining, Memory.realign_capacity]
    exact Memory.rolloverAt_remaining_le _ _ (by simpa)
  · rcases hv : st.value with - | c
    · rw [Redis.Add_value_none rb amount now st hv]
      exact Redis.addTail_remaining_le _ _ _ _ _ _ (by simp)
    · rcases c with - | j
      · rw [Redis.Add_value_malformed rb amount now st hv]
        exact h
      · rw [Redis.Add_value_val rb amount now st j hv]
        exact Redis.addTail_remaining_le _ _ _ _ _ _ (by simp)
  · rw [Redis.Add_value_val rb amount now st i hv]
    exact Redis.addTail_remaining_le _ _ _ _ _ _ (by simp)
  · unfold Redis.Storage.Create at h
    rcases hv : st.value with - | c <;> rw [hv] at h
    · simp at h
      rw [← h]
    · rcases c with - | j
      · simp at h
      · simp at h
        rw [← h]
        exact Nat.sub_le _ _

/-- C4 (witness): a remote counter of 25 against capacity 10 still projects
`remaining = 0 ≤ 10`, and the shared backend's `Create` over that store
returns a bucket with `remaining ≤ capacity`. -/
theorem remaining_bounds_invariant_witness :
    (Redis.Bucket.Add (Redis.Bucket.mk 10 10 0 1000000000) 0 0
        { value := some (Redis.Content.val 25), pttl := 300 }).bucket.remaining ≤
      (Redis.Bucket.Add (Redis.Bucket.mk 10 10 0 1000000000) 0 0
        { value := some (Redis.Content.val 25), pttl := 300 }).bucket.capacity
    ∧ (Memory.Bucket.Add (Memory.Bucket.mk 10 4 100 50 0) 3 0).bucket.remaining ≤
      (Memory.Bucket.Add (Memory.Bucket.mk 10 4 100 50 0) 3 0).bucket.capacity := by
  have h1 := (remaining_bounds_invariant (Memory.Bucket.mk 10 4 100 50 0)
      (Redis.Bucket.mk 10 10 0 1000000000) 0 10 0 0 1000000000 0 [] "a"
      { value := some (Redis.Content.val 25), pttl := 300 } 25).2.2.2.2.1 (by decide)
  have h2 := (remaining_bounds_invariant (Memory.Bucket.mk 10 4 100 50 0)
      (Redis.Bucket.mk 10 10 0 1000000000) 3 10 0 0 1000000000 0 [] "a"
      { value := some (Redis.Content.val 25), pttl := 300 } 25).2.1 (by decide)
  exact ⟨h1, h2⟩

/-- C3: for any sequence of memory-backend `Add` calls that all happen within
one window (every call instant at most the initial reset time, so no call
triggers a rollover), starting from a bucket with `remaining = capacity`:
after every prefix of the sequence, `remaining` plus the sum of the accepted
(non-error) amounts equals `capacity`, and `remaining` never exceeds
`capacity` (as a `Nat` it is also never negative — the full-bucket guard
prevents underflow of the unsigned subtraction). -/
theorem memAdd_window_invariant (b : Memory.Bucket) (calls : List (Nat × Int))
    (hfull : b.remaining = b.capacity)
    (hwin : ∀ c ∈ calls, c.2 ≤ b.reset) (n : Nat) :
    (Memory.addSeq b (calls.take n)).remaining +
        Memory.acceptedSum b (calls.take n) = b.capacity
    ∧ (Memory.addSeq b (calls.take n)).remaining ≤ b.capacity := by
  have hwin2 : ∀ c ∈ calls.take n, c.2 ≤ b.reset := fun c hc =>
    hwin c (List.mem_of_mem_take hc)
  obtain ⟨h1, -, -⟩ := Memory.addSeq_invariant (calls.take n) b hwin2
  rw [hfull] at h1
  exact ⟨h1, by omega⟩

/-- C3 (witness): capacity 5, window ending at 10; calls (2 at t=3), (9 at
t=4, rejected), (1 at t=5): the accepted sum is 3 and remaining 2, summing to
the capacity after every prefix — here the full sequence. -/
theorem memAdd_window_invariant_witness :
    (Memory.addSeq (Memory.Bucket.mk 5 5 10 2 0)
        (List.take 3 [(2, 3), (9, 4), (1, 5)])).remaining +
      Memory.acceptedSum (Memory.Bucket.mk 5 5 10 2 0)
        (List.take 3 [(2, 3), (9, 4), (1, 5)]) =
      (Memory.Bucket.mk 5 5 10 2 0).capacity
    ∧ (Memory.addSeq (Memory.Bucket.mk 5 5 10 2 0)
        (List.take 3 [(2, 3), (9, 4), (1, 5)])).remaining ≤
      (Memory.Bucket.mk 5 5 10 2 0).capacity :=
  memAdd_window_invariant (Memory.Bucket.mk 5 5 10 2 0) [(2, 3), (9, 4), (1, 5)]
    (by decide) (by decide) 3

/-- C5: in the shared backend's `Add`, once the full-bucket check passes the
counter is incremented by `amount` (`INCRBY`), and `PEXPIRE` — with the rate
converted to milliseconds — is issued exactly when the post-increment counter
value (as a Go `uint`) equals `amount` itself. -/
theorem redisAdd_incrby_pexpire (rb : Redis.Bucket) (amount : Nat) (now : Int)
    (st : Redis.Store) (i : Int) :
    (st.value = some (Redis.Content.val i) →
      ¬ rb.capacity - min (goUint64 i) rb.capacity < amount →
      Redis.Cmd.incrby amount ∈ (Redis.Bucket.Add rb amount now st).cmds
      ∧ (Redis.Bucket.Add rb amount now st).store.value
          = some (Redis.Content.val (i + (amount : Int)))
      ∧ ((∃ ms, Redis.Cmd.pexpire ms ∈ (Redis.Bucket.Add rb amount now st).cmds) ↔
          goUint64 (i + (amount : Int)) = amount)
      ∧ (goUint64 (i + (amount : Int)) = amount →
          Redis.Cmd.pexpire (Int.tdiv rb.rate millisecondNs) ∈
            (Redis.Bucket.Add rb amount now st).cmds))
    ∧ (st.value = none → ¬ rb.capacity < amount → amount < 2 ^ 64 →
      Redis.Cmd.incrby amount ∈ (Redis.Bucket.Add rb amount now st).cmds
      ∧ (Redis.Bucket.Add rb amount now st).store.value
          = some (Redis.Content.val (amount : Int))
      ∧ Redis.Cmd.pexpire (Int.tdiv rb.rate millisecondNs) ∈
          (Redis.Bucket.Add rb amount now st).cmds) := by
  constructor
  · intro hv hlt
    rw [Redis.Add_value_val rb amount now st i hv]
    obtain ⟨-, hval, -, hcmds, -, -, -, -⟩ :=
      Redis.addTail_ok_spec
        { rb with remaining := rb.capacity - min (goUint64 i) rb.capacity }
        amount now st i [Redis.Cmd.get] hlt
    rw [hcmds, hval]
    refine ⟨by simp, rfl, ?_, ?_⟩
    · constructor
      · rintro ⟨ms, hms⟩
        by_contra hne
        rw [if_neg hne] at hms
        simp at hms
      · intro hc
        exact ⟨Int.tdiv rb.rate millisecondNs, by rw [if_pos hc]; simp⟩
    · intro hc
      rw [if_pos hc]
      simp
  · intro hv hlt hsz
    rw [Redis.Add_value_none rb amount now st hv]
    obtain ⟨-, hval, -, hcmds, -, -, -, -⟩ :=
      Redis.addTail_ok_spec { rb with remaining := rb.capacity }
        amount now st 0 [Redis.Cmd.get] hlt
    have hc : goUint64 ((0 : Int) + (amount : Int)) = amount := by
      rw [Int.zero_add]
      exact Redis.goUint64_ofNat amount hsz
    rw [hcmds, hval]
    rw [if_pos hc]
    refine ⟨by simp, by rw [Int.zero_add], by simp⟩

/-- C5 (witness): counter 3, capacity 10, `Add(2)`: `INCRBY 2` is issued and
the post-increment value 5 ≠ 2, so no `PEXPIRE` appears; on an absent key,
`Add(2)` returns post-increment value 2 = amount and `PEXPIRE 2000`
(rate 2s → 2000 ms) is issued. -/
theorem redisAdd_incrby_pexpire_witness :
    Redis.Cmd.incrby 2 ∈ (Redis.Bucket.Add (Redis.Bucket.mk 10 10 0 2000000000) 2 0
        { value := some (Redis.Content.val 3), pttl := 500 }).cmds
    ∧ ¬ (∃ ms, Redis.Cmd.pexpire ms ∈
        (Redis.Bucket.Add (Redis.Bucket.mk 10 10 0 2000000000) 2 0
          { value := some (Redis.Content.val 3), pttl := 500 }).cmds)
    ∧ Redis.Cmd.pexpire 2000 ∈
        (Redis.Bucket.Add (Redis.Bucket.mk 10 10 0 2000000000) 2 0
          { value := none, pttl := -2 }).cmds := by
  have h1 := (redisAdd_incrby_pexpire (Redis.Bucket.mk 10 10 0 2000000000) 2 0
      { value := some (Redis.Content.val 3), pttl := 500 } 3).1 (by decide) (by decide)
  have h2 := (redisAdd_incrby_pexpire (Redis.Bucket.mk 10 10 0 2000000000) 2 0
      { value := none, pttl := -2 } 3).2 (by decide) (by decide) (by decide)
  refine ⟨h1.1, fun hex => ?_, by simpa using h2.2.2⟩
  have := h1.2.2.1.mp hex
  revert this
  decide

/-- C6 (counterexample): the claim fails for the shared backend — a repeat
`Create` there *does* re-apply the new `capacity`/`rate` arguments.  A first
`Create(name, 10, 1s)` against an absent key yields a bucket with capacity
10 and rate 1s; once the remote counter exists (value 5, TTL 500ms), a
repeat `Create(name, 20, 7s)` returns a handle whose capacity is 20 and rate
7s — not the existing bucket's 10 and 1s. -/
theorem create_reapplies_args_cex :
    (Redis.Storage.Create 10 1000000000 0 { value := none, pttl := -2 }).bucket =
      some (Redis.Bucket.mk 10 10 1000000000 1000000000)
    ∧ (Redis.Storage.Create 20 7000000000 0
        { value := some (Redis.Content.val 5), pttl := 500 }).bucket =
      some (Redis.Bucket.mk 20 15 500000000 7000000000)
    ∧ (20 : Nat) ≠ 10 ∧ (7000000000 : Int) ≠ 1000000000 := by
  decide

/-- C6 (amended): `Create` is idempotent per name for the **memory** backend:
a repeat call returns the stored bucket unchanged (ignoring the new
`capacity`/`rate` arguments) and leaves the table untouched.  For the
**shared** backend a repeat `Create` over an existing remote counter returns
a fresh handle whose `capacity` and `rate` are the newly supplied arguments;
only `remaining` and `reset` are reconstructed from the remote counter and
TTL (`remaining = capacity' - min(capacity', counter)`,
`reset = now + PTTL`). -/
theorem create_idempotency (s : Memory.Storage) (name : String) (b : Memory.Bucket)
    (capacity2 : Nat) (rate2 now2 : Int) (st : Redis.Store) (i : Int) :
    (List.lookup name s = some b →
      Memory.Storage.Create s name capacity2 rate2 now2 = (b, s))
    ∧ (st.value = some (Redis.Content.val i) →
      (Redis.Storage.Create capacity2 rate2 now2 st).bucket =
        some { capacity := capacity2,
               remaining := capacity2 - min capacity2 (goUint64 i),
               reset := now2 + st.pttl * millisecondNs, rate := rate2 }) := by
  constructor
  · intro h
    unfold Memory.Storage.Create
    rw [h]
  · intro hv
    unfold Redis.Storage.Create
    rw [hv]

/-- C6 (witness): a memory table holding bucket `{5, 2, 50, 10, 0}` under
"n" returns exactly that bucket (and the unchanged table) on a repeat
`Create("n", 99, 77)`; a redis repeat `Create` with capacity 20 and rate 7s
over counter 5 / TTL 500ms yields the reconstructed handle. -/
theorem create_idempotency_witness :
    Memory.Storage.Create [("n", Memory.Bucket.mk 5 2 50 10 0)] "n" 99 77 100 =
      (Memory.Bucket.mk 5 2 50 10 0, [("n", Memory.Bucket.mk 5 2 50 10 0)])
    ∧ (Redis.Storage.Create 20 7000000000 0
        { value := some (Redis.Content.val 5), pttl := 500 }).bucket =
      some (Redis.Bucket.mk 20 15 500000000 7000000000) := by
  have h1 := (create_idempotency [("n", Memory.Bucket.mk 5 2 50 10 0)] "n"
      (Memory.Bucket.mk 5 2 50 10 0) 99 77 100
      { value := some (Redis.Content.val 5), pttl := 500 } 5).1 (by decide)
  have h2 := (create_idempotency [("n", Memory.Bucket.mk 5 2 50 10 0)] "n"
      (Memory.Bucket.mk 5 2 50 10 0) 20 7000000000 0
      { value := some (Redis.Content.val 5), pttl := 500 } 5).2 (by decide)
  exact ⟨h1, by rw [h2]; decide⟩

/-- C8: a stored remote value that does not parse as an integer makes the
shared backend's `Add` and `Create` return the parse error: the local bucket
and the remote store are untouched and the only command issued is the `GET`
— in particular no `INCRBY` or `PEXPIRE` — and the value is never coerced to
zero (`byteArrayToUint` yields no number at all). -/
theorem malformed_value_errors (rb : Redis.Bucket) (amount capacity : Nat)
    (rate now : Int) (st : Redis.Store) :
    st.value = some Redis.Content.malformed →
      (Redis.Bucket.Add rb amount now st).err = some BucketError.parseFail
      ∧ (Redis.Bucket.Add rb amount now st).bucket = rb
      ∧ (Redis.Bucket.Add rb amount now st).store = st
      ∧ (Redis.Bucket.Add rb amount now st).cmds = [Redis.Cmd.get]
      ∧ (Redis.Storage.Create capacity rate now st).err = some BucketError.parseFail
      ∧ (Redis.Storage.Create capacity rate now st).bucket = none
      ∧ (Redis.Storage.Create capacity rate now st).cmds = [Redis.Cmd.get]
      ∧ Redis.byteArrayToUint Redis.Content.malformed = none := by
  intro hv
  rw [Redis.Add_value_malformed rb amount now st hv]
  unfold Redis.Storage.Create
  rw [hv]
  exact ⟨rfl, rfl, rfl, rfl, rfl, rfl, rfl, rfl⟩

/-- C8 (witness): with the key holding a non-integer string, `Add(1)` and
`Create` both fail with the parse error after only the `GET`. -/
theorem malformed_value_errors_witness :
    (Redis.Bucket.Add (Redis.Bucket.mk 10 10 0 1000000000) 1 0
        { value := some Redis.Content.malformed, pttl := 500 }).err =
      some BucketError.parseFail
    ∧ (Redis.Bucket.Add (Redis.Bucket.mk 10 10 0 1000000000) 1 0
        { value := some Redis.Content.malformed, pttl := 500 }).cmds = [Redis.Cmd.get]
    ∧ (Redis.Storage.Create 10 1000000000 0
        { value := some Redis.Content.malformed, pttl := 500 }).err =
      some BucketError.parseFail := by
  have h := malformed_value_errors (Redis.Bucket.mk 10 10 0 1000000000) 1 10 1000000000 0
      { value := some Redis.Content.malformed, pttl := 500 } (by decide)
  exact ⟨h.1, h.2.2.2.1, h.2.2.2.2.1⟩

/-- C9 (counterexample): a successful `Add` does **not** always reconcile the
returned reset time with `now + PTTL`: when the cached reset (here 2s) is
still in the future at `now = 0`, `updateOldReset` returns without reading
`PTTL`, so the returned reset stays 2×10⁹ ns even though the key's TTL after
the call is 1000 ms (so `now + PTTL` would be 10⁹ ns); no `PTTL` command is
issued at all. -/
theorem redisAdd_reset_not_reconciled_cex :
    (Redis.Bucket.Add (Redis.Bucket.mk 10 10 2000000000 1000000000) 1 0
        { value := none, pttl := 500 }).err = none
    ∧ (Redis.Bucket.Add (Redis.Bucket.mk 10 10 2000000000 1000000000) 1 0
        { value := none, pttl := 500 }).state.reset = 2000000000
    ∧ (Redis.Bucket.Add (Redis.Bucket.mk 10 10 2000000000 1000000000) 1 0
        { value := none, pttl := 500 }).store.pttl = 1000
    ∧ (2000000000 : Int) ≠ 0 + 1000 * millisecondNs
    ∧ (2000000000 : Int) ≠ 0 + 500 * millisecondNs
    ∧ Redis.Cmd.pttl ∉ (Redis.Bucket.Add (Redis.Bucket.mk 10 10 2000000000 1000000000) 1 0
        { value := none, pttl := 500 }).cmds := by
  decide

/-- C9 (amended): after a successful shared-backend `Add`, the cached reset
time is reconciled against the key's live TTL **only when the cached reset
is not in the future** (compared in whole Unix seconds): then the returned
reset equals `now` plus the key's time-to-live (in ms) and a `PTTL` command
was issued; when the cached reset is still in the future, the returned reset
is the cached value, unchanged, and no `PTTL` command is issued. -/
theorem redisAdd_reset_reconcile (rb : Redis.Bucket) (amount : Nat) (now : Int)
    (st : Redis.Store) :
    (Redis.Bucket.Add rb amount now st).err = none →
      ((unixSec rb.reset ≤ unixSec now →
          (Redis.Bucket.Add rb amount now st).state.reset =
            now + (Redis.Bucket.Add rb amount now st).store.pttl * millisecondNs
          ∧ Redis.Cmd.pttl ∈ (Redis.Bucket.Add rb amount now st).cmds)
      ∧ (unixSec now < unixSec rb.reset →
          (Redis.Bucket.Add rb amount now st).state.reset = rb.reset
          ∧ Redis.Cmd.pttl ∉ (Redis.Bucket.Add rb amount now st).cmds)) := by
  intro herr
  rcases hv : st.value with - | c
  · rw [Redis.Add_value_none rb amount now st hv] at herr ⊢
    by_cases hfl : rb.capacity < amount
    · obtain ⟨he, -⟩ := Redis.addTail_full_spec { rb with remaining := rb.capacity }
        amount now st 0 [Redis.Cmd.get] (by simpa using hfl)
      rw [he] at herr
      cases herr
    · have h := Redis.addTail_reset_reconcile { rb with remaining := rb.capacity }
        amount now st 0 [Redis.Cmd.get] (by simpa using hfl)
      exact ⟨h.1, fun hlt => ⟨(h.2 hlt).1, (h.2 hlt).2 (by decide)⟩⟩
  · rcases c with - | i
    · rw [Redis.Add_value_malformed rb amount now st hv] at herr
      cases herr
    · rw [Redis.Add_value_val rb amount now st i hv] at herr ⊢
      by_cases hfl : rb.capacity - min (goUint64 i) rb.capacity < amount
      · obtain ⟨he, -⟩ := Redis.addTail_full_spec
          { rb with remaining := rb.capacity - min (goUint64 i) rb.capacity }
          amount now st i [Redis.Cmd.get] (by simpa using hfl)
        rw [he] at herr
        cases herr
      · have h := Redis.addTail_reset_reconcile
          { rb with remaining := rb.capacity - min (goUint64 i) rb.capacity }
          amount now st i [Redis.Cmd.get] (by simpa using hfl)
        exact ⟨h.1, fun hlt => ⟨(h.2 hlt).1, (h.2 hlt).2 (by decide)⟩⟩

/-- C9 (witness): with a stale cached reset (0 ≤ now), a successful `Add(2)`
reads `PTTL` (500 ms) and returns `reset = now + 500 ms = 5×10⁸ ns`; with a
cached reset of 2 s still in the future at `now = 0`, a successful `Add(1)`
returns the cached reset unchanged and issues no `PTTL`. -/
theorem redisAdd_reset_reconcile_witness :
    (Redis.Bucket.Add (Redis.Bucket.mk 10 10 0 1000000000) 2 0
        { value := some (Redis.Content.val 3), pttl := 500 }).state.reset = 500000000
    ∧ Redis.Cmd.pttl ∈ (Redis.Bucket.Add (Redis.Bucket.mk 10 10 0 1000000000) 2 0
        { value := some (Redis.Content.val 3), pttl := 500 }).cmds
    ∧ (Redis.Bucket.Add (Redis.Bucket.mk 10 10 2000000000 1000000000) 1 0
        { value := some (Redis.Content.val 3), pttl := 500 }).state.reset = 2000000000
    ∧ Redis.Cmd.pttl ∉ (Redis.Bucket.Add (Redis.Bucket.mk 10 10 2000000000 1000000000) 1 0
        { value := some (Redis.Content.val 3), pttl := 500 }).cmds := by
  have h1 := (redisAdd_reset_reconcile (Redis.Bucket.mk 10 10 0 1000000000) 2 0
      { value := some (Redis.Content.val 3), pttl := 500 } (by decide)).1 (by decide)
  have h2 := (redisAdd_reset_reconcile (Redis.Bucket.mk 10 10 2000000000 1000000000) 1 0
      { value := some (Redis.Content.val 3), pttl := 500 } (by decide)).2 (by decide)
  exact ⟨by rw [h1.1]; decide, h1.2, h2.1, h2.2⟩

end LeakyBucket
